import Mathlib

set_option maxRecDepth 100000

/-!
Shallow embedding of the DNS wire-format codec of this repository
(a codecrafters "build your own DNS server" implementation in Go).

Bytes are modelled as `Nat` (values < 256 on wire reads, buffers as
`List Nat`), 16-bit fields as `Nat` with explicit `% 2^16` handling
where the Go code relies on the `uint16`/`uint8` types, and fallible
decoding as `Except DnsError` / `Option`.
-/

/-- Error kinds of the codec, as named by the design document.
The Go code surfaces them as `fmt.Errorf` values ("buffer too short",
"invalid question format"); we use one constructor per kind. -/
inductive DnsError where
  | truncatedInput
  | labelTooLong
  | invalidLabelLength
  | compressionLoop
deriving DecidableEq, Repr

/-- `Header` from `models.go`: ID (uint16), QR/AA/TC/RD/RA (bool),
OPCODE/Z/RCODE (uint8, 4/3/4 significant bits), four uint16 counts. -/
structure Header where
  ID      : Nat
  QR      : Bool
  OPCODE  : Nat
  AA      : Bool
  TC      : Bool
  RD      : Bool
  RA      : Bool
  Z       : Nat
  RCODE   : Nat
  QDCOUNT : Nat
  ANCOUNT : Nat
  NSCOUNT : Nat
  ARCOUNT : Nat
deriving DecidableEq, Repr

/-- The Go `uint16` / `uint8` typing of the `Header` fields, made explicit:
every numeric field fits its machine width (the flag sub-fields their
declared bit widths). -/
def Header.Valid (h : Header) : Prop :=
  h.ID < 65536 ∧ h.OPCODE < 16 ∧ h.Z < 8 ∧ h.RCODE < 16 ∧
  h.QDCOUNT < 65536 ∧ h.ANCOUNT < 65536 ∧ h.NSCOUNT < 65536 ∧ h.ARCOUNT < 65536

instance (h : Header) : Decidable h.Valid := by
  unfold Header.Valid; infer_instance

/-- `binary.BigEndian.PutUint16`: two big-endian bytes of a 16-bit value. -/
def toBytes16 (n : Nat) : List Nat :=
  [n / 256 % 256, n % 256]

/-- `binary.BigEndian.PutUint32`: four big-endian bytes of a 32-bit value. -/
def toBytes32 (n : Nat) : List Nat :=
  [n / 16777216 % 256, n / 65536 % 256, n / 256 % 256, n % 256]

/-- `binary.BigEndian.Uint16` of bytes at positions `i, i+1` of `buf`. -/
def readU16 (buf : List Nat) (i : Nat) : Nat :=
  256 * buf.getD i 0 + buf.getD (i + 1) 0

/-- `parseDnsHeader` from the Go source: fails when fewer than 12 bytes,
otherwise unpacks the fixed 12-byte header.  Bit extraction mirrors the Go
expressions: QR = `buf[2]&0x80 != 0`, OPCODE = `(buf[2]>>3)&0x0F`,
AA = `buf[2]&0x04`, TC = `buf[2]&0x02`, RD = `buf[2]&0x01`,
RA = `buf[3]&0x80`, Z = `(buf[3]>>4)&0x07`, RCODE = `buf[3]&0x0F`. -/
def parseDnsHeader (buf : List Nat) : Except DnsError Header :=
  if buf.length < 12 then
    .error .truncatedInput
  else
    .ok {
      ID      := readU16 buf 0
      QR      := buf.getD 2 0 &&& 0x80 != 0
      OPCODE  := (buf.getD 2 0 >>> 3) &&& 0x0F
      AA      := buf.getD 2 0 &&& 0x04 != 0
      TC      := buf.getD 2 0 &&& 0x02 != 0
      RD      := buf.getD 2 0 &&& 0x01 != 0
      RA      := buf.getD 3 0 &&& 0x80 != 0
      Z       := (buf.getD 3 0 >>> 4) &&& 0x07
      RCODE   := buf.getD 3 0 &&& 0x0F
      QDCOUNT := readU16 buf 4
      ANCOUNT := readU16 buf 6
      NSCOUNT := readU16 buf 8
      ARCOUNT := readU16 buf 10 }

/-- `boolToUint16` from the Go source. -/
def boolToUint16 (b : Bool) : Nat :=
  if b then 1 else 0

/-- The flags word assembled by `buildResponse`: QR hard-wired to 1
(`flags |= 0x8000`), then each field masked to its width and shifted,
exactly as the sequence of `flags |=` statements in the Go source. -/
def mkFlags (op z rc : Nat) (aa tc rd ra : Bool) : Nat :=
  0x8000 |||
  ((op &&& 0x0F) <<< 11) |||
  (boolToUint16 aa <<< 10) |||
  (boolToUint16 tc <<< 9) |||
  (boolToUint16 rd <<< 8) |||
  (boolToUint16 ra <<< 7) |||
  ((z &&& 0x07) <<< 4) |||
  (rc &&& 0x0F)

/-- `buildResponse` from the Go source: writes ID, the flags word (with
QR forced to 1), and the four counts, each as big-endian 16-bit values,
into a 12-byte buffer.  (The Go function also mutates `header.QR`; only
the returned bytes matter here.) -/
def buildResponse (header : Header) : List Nat :=
  toBytes16 header.ID ++
  toBytes16 (mkFlags header.OPCODE header.Z header.RCODE
    header.AA header.TC header.RD header.RA) ++
  toBytes16 header.QDCOUNT ++
  toBytes16 header.ANCOUNT ++
  toBytes16 header.NSCOUNT ++
  toBytes16 header.ARCOUNT

instance {ε α : Type} [DecidableEq ε] [DecidableEq α] : DecidableEq (Except ε α) := fun a b =>
  match a, b with
  | .ok x, .ok y => decidable_of_iff (x = y) (by simp)
  | .error e, .error f => decidable_of_iff (e = f) (by simp)
  | .ok _, .error _ => isFalse (by simp)
  | .error _, .ok _ => isFalse (by simp)

/-! ### Arithmetic view of the flags word and of byte-level bit extraction -/

lemma or_add_pow {i a b n : Nat} (hn : n = 2 ^ i * a) (hb : b < 2 ^ i) :
    n ||| b = n + b := by
  subst hn; exact (Nat.mul_add_lt_is_or hb a).symm

lemma and15 (x : Nat) : x &&& 15 = x % 16 := by
  have := Nat.and_pow_two_sub_one_eq_mod x 4; norm_num at this; exact this

lemma and7 (x : Nat) : x &&& 7 = x % 8 := by
  have := Nat.and_pow_two_sub_one_eq_mod x 3; norm_num at this; exact this

lemma boolToUint16_le (b : Bool) : boolToUint16 b ≤ 1 := by
  cases b <;> simp [boolToUint16]

lemma boolToUint16_false : boolToUint16 false = 0 := rfl

lemma boolToUint16_true : boolToUint16 true = 1 := rfl

/-- The flags word written as a plain sum: the OR-ed fields occupy
disjoint bit ranges, so the ORs are additions. -/
lemma mkFlags_eq (op z rc : Nat) (aa tc rd ra : Bool) :
    mkFlags op z rc aa tc rd ra =
      32768 + op % 16 * 2048 + boolToUint16 aa * 1024 + boolToUint16 tc * 512 +
      boolToUint16 rd * 256 + boolToUint16 ra * 128 + z % 8 * 16 + rc % 16 := by
  have haa := boolToUint16_le aa
  have htc := boolToUint16_le tc
  have hrd := boolToUint16_le rd
  have hra := boolToUint16_le ra
  unfold mkFlags
  simp only [Nat.shiftLeft_eq, and15, and7]
  norm_num
  have e1 : (32768 : ℕ) ||| op % 16 * 2048 = 32768 + op % 16 * 2048 :=
    or_add_pow (i := 15) (a := 1) (by norm_num) (by omega)
  rw [e1]
  have e2 : (32768 : ℕ) + op % 16 * 2048 ||| boolToUint16 aa * 1024 =
      32768 + op % 16 * 2048 + boolToUint16 aa * 1024 :=
    or_add_pow (i := 11) (a := 16 + op % 16) (by omega) (by omega)
  rw [e2]
  have e3 : (32768 : ℕ) + op % 16 * 2048 + boolToUint16 aa * 1024 ||| boolToUint16 tc * 512 =
      32768 + op % 16 * 2048 + boolToUint16 aa * 1024 + boolToUint16 tc * 512 :=
    or_add_pow (i := 10) (a := 32 + op % 16 * 2 + boolToUint16 aa) (by omega) (by omega)
  rw [e3]
  have e4 : (32768 : ℕ) + op % 16 * 2048 + boolToUint16 aa * 1024 + boolToUint16 tc * 512 |||
      boolToUint16 rd * 256 =
      32768 + op % 16 * 2048 + boolToUint16 aa * 1024 + boolToUint16 tc * 512 +
      boolToUint16 rd * 256 :=
    or_add_pow (i := 9) (a := 64 + op % 16 * 4 + boolToUint16 aa * 2 + boolToUint16 tc)
      (by omega) (by omega)
  rw [e4]
  have e5 : (32768 : ℕ) + op % 16 * 2048 + boolToUint16 aa * 1024 + boolToUint16 tc * 512 +
      boolToUint16 rd * 256 ||| boolToUint16 ra * 128 =
      32768 + op % 16 * 2048 + boolToUint16 aa * 1024 + boolToUint16 tc * 512 +
      boolToUint16 rd * 256 + boolToUint16 ra * 128 :=
    or_add_pow (i := 8)
      (a := 128 + op % 16 * 8 + boolToUint16 aa * 4 + boolToUint16 tc * 2 + boolToUint16 rd)
      (by omega) (by omega)
  rw [e5]
  have e6 : (32768 : ℕ) + op % 16 * 2048 + boolToUint16 aa * 1024 + boolToUint16 tc * 512 +
      boolToUint16 rd * 256 + boolToUint16 ra * 128 ||| z % 8 * 16 =
      32768 + op % 16 * 2048 + boolToUint16 aa * 1024 + boolToUint16 tc * 512 +
      boolToUint16 rd * 256 + boolToUint16 ra * 128 + z % 8 * 16 :=
    or_add_pow (i := 7)
      (a := 256 + op % 16 * 16 + boolToUint16 aa * 8 + boolToUint16 tc * 4 + boolToUint16 rd * 2 +
        boolToUint16 ra)
      (by omega) (by omega)
  rw [e6]
  have e7 : (32768 : ℕ) + op % 16 * 2048 + boolToUint16 aa * 1024 + boolToUint16 tc * 512 +
      boolToUint16 rd * 256 + boolToUint16 ra * 128 + z % 8 * 16 ||| rc % 16 =
      32768 + op % 16 * 2048 + boolToUint16 aa * 1024 + boolToUint16 tc * 512 +
      boolToUint16 rd * 256 + boolToUint16 ra * 128 + z % 8 * 16 + rc % 16 :=
    or_add_pow (i := 4)
      (a := 2048 + op % 16 * 128 + boolToUint16 aa * 64 + boolToUint16 tc * 32 +
        boolToUint16 rd * 16 + boolToUint16 ra * 8 + z % 8)
      (by omega) (by omega)
  rw [e7]

lemma byteQR : ∀ x < 256, (x &&& 128 != 0) = decide (x / 128 % 2 = 1) := by decide

lemma byteOP : ∀ x < 256, (x >>> 3) &&& 15 = x / 8 % 16 := by decide

lemma byteAA : ∀ x < 256, (x &&& 4 != 0) = decide (x / 4 % 2 = 1) := by decide

lemma byteTC : ∀ x < 256, (x &&& 2 != 0) = decide (x / 2 % 2 = 1) := by decide

lemma byteRD : ∀ x < 256, (x &&& 1 != 0) = decide (x % 2 = 1) := by decide

lemma byteZ : ∀ x < 256, (x >>> 4) &&& 7 = x / 16 % 8 := by decide

lemma flagsQR (op z rc : Nat) (aa tc rd ra : Bool) :
    (mkFlags op z rc aa tc rd ra / 256 % 256 &&& 128 != 0) = true := by
  have hF := mkFlags_eq op z rc aa tc rd ra
  have haa := boolToUint16_le aa; have htc := boolToUint16_le tc
  have hrd := boolToUint16_le rd; have hra := boolToUint16_le ra
  rw [byteQR _ (by omega)]
  simp only [decide_eq_true_eq]
  omega

lemma flagsOP (op z rc : Nat) (aa tc rd ra : Bool) (hop : op < 16) :
    ((mkFlags op z rc aa tc rd ra / 256 % 256) >>> 3) &&& 15 = op := by
  have hF := mkFlags_eq op z rc aa tc rd ra
  have haa := boolToUint16_le aa; have htc := boolToUint16_le tc
  have hrd := boolToUint16_le rd; have hra := boolToUint16_le ra
  rw [byteOP _ (by omega)]
  omega

lemma flagsAA (op z rc : Nat) (aa tc rd ra : Bool) :
    (mkFlags op z rc aa tc rd ra / 256 % 256 &&& 4 != 0) = aa := by
  have hF := mkFlags_eq op z rc aa tc rd ra
  have htc := boolToUint16_le tc
  have hrd := boolToUint16_le rd; have hra := boolToUint16_le ra
  rw [byteAA _ (by omega)]
  cases aa <;> simp only [boolToUint16_false, boolToUint16_true] at hF <;>
    simp only [decide_eq_true_eq, decide_eq_false_iff_not] <;> omega

lemma flagsTC (op z rc : Nat) (aa tc rd ra : Bool) :
    (mkFlags op z rc aa tc rd ra / 256 % 256 &&& 2 != 0) = tc := by
  have hF := mkFlags_eq op z rc aa tc rd ra
  have haa := boolToUint16_le aa
  have hrd := boolToUint16_le rd; have hra := boolToUint16_le ra
  rw [byteTC _ (by omega)]
  cases tc <;> simp only [boolToUint16_false, boolToUint16_true] at hF <;>
    simp only [decide_eq_true_eq, decide_eq_false_iff_not] <;> omega

lemma flagsRD (op z rc : Nat) (aa tc rd ra : Bool) :
    (mkFlags op z rc aa tc rd ra / 256 % 256 &&& 1 != 0) = rd := by
  have hF := mkFlags_eq op z rc aa tc rd ra
  have haa := boolToUint16_le aa; have htc := boolToUint16_le tc
  have hra := boolToUint16_le ra
  rw [byteRD _ (by omega)]
  cases rd <;> simp only [boolToUint16_false, boolToUint16_true] at hF <;>
    simp only [decide_eq_true_eq, decide_eq_false_iff_not] <;> omega

lemma flagsRA (op z rc : Nat) (aa tc rd ra : Bool) :
    (mkFlags op z rc aa tc rd ra % 256 &&& 128 != 0) = ra := by
  have hF := mkFlags_eq op z rc aa tc rd ra
  have haa := boolToUint16_le aa; have htc := boolToUint16_le tc
  have hrd := boolToUint16_le rd
  rw [byteQR _ (by omega)]
  cases ra <;> simp only [boolToUint16_false, boolToUint16_true] at hF <;>
    simp only [decide_eq_true_eq, decide_eq_false_iff_not] <;> omega

lemma flagsZ (op z rc : Nat) (aa tc rd ra : Bool) (hz : z < 8) :
    ((mkFlags op z rc aa tc rd ra % 256) >>> 4) &&& 7 = z := by
  have hF := mkFlags_eq op z rc aa tc rd ra
  have haa := boolToUint16_le aa; have htc := boolToUint16_le tc
  have hrd := boolToUint16_le rd; have hra := boolToUint16_le ra
  rw [byteZ _ (by omega)]
  omega

lemma flagsRC (op z rc : Nat) (aa tc rd ra : Bool) (hrc : rc < 16) :
    mkFlags op z rc aa tc rd ra % 256 &&& 15 = rc := by
  have hF := mkFlags_eq op z rc aa tc rd ra
  have haa := boolToUint16_le aa; have htc := boolToUint16_le tc
  have hrd := boolToUint16_le rd; have hra := boolToUint16_le ra
  rw [and15]
  omega

/-- The 12 bytes `buildResponse` emits, spelled out. -/
lemma buildResponse_bytes (ID : Nat) (QR : Bool) (OP : Nat) (AA TC RD RA : Bool)
    (Z RC QD AN NS AR : Nat) :
    buildResponse ⟨ID, QR, OP, AA, TC, RD, RA, Z, RC, QD, AN, NS, AR⟩ =
      [ID / 256 % 256, ID % 256,
       mkFlags OP Z RC AA TC RD RA / 256 % 256, mkFlags OP Z RC AA TC RD RA % 256,
       QD / 256 % 256, QD % 256, AN / 256 % 256, AN % 256,
       NS / 256 % 256, NS % 256, AR / 256 % 256, AR % 256] := by rfl

/-- `parseDnsHeader` applied to an explicit 12-byte buffer. -/
lemma parseDnsHeader_bytes (b0 b1 b2 b3 b4 b5 b6 b7 b8 b9 b10 b11 : Nat) :
    parseDnsHeader [b0, b1, b2, b3, b4, b5, b6, b7, b8, b9, b10, b11] =
      .ok ⟨256 * b0 + b1,
        b2 &&& 128 != 0, (b2 >>> 3) &&& 15, b2 &&& 4 != 0, b2 &&& 2 != 0, b2 &&& 1 != 0,
        b3 &&& 128 != 0, (b3 >>> 4) &&& 7, b3 &&& 15,
        256 * b4 + b5, 256 * b6 + b7, 256 * b8 + b9, 256 * b10 + b11⟩ := by rfl

/-- Key round-trip fact: parsing the bytes of `buildResponse` recovers every
field, with QR forced to `true`. -/
theorem parse_build_fields (ID : Nat) (QR : Bool) (OP : Nat) (AA TC RD RA : Bool)
    (Z RC QD AN NS AR : Nat)
    (hID : ID < 65536) (hOP : OP < 16) (hZ : Z < 8) (hRC : RC < 16)
    (hQD : QD < 65536) (hAN : AN < 65536) (hNS : NS < 65536) (hAR : AR < 65536) :
    parseDnsHeader (buildResponse ⟨ID, QR, OP, AA, TC, RD, RA, Z, RC, QD, AN, NS, AR⟩) =
      .ok ⟨ID, true, OP, AA, TC, RD, RA, Z, RC, QD, AN, NS, AR⟩ := by
  rw [buildResponse_bytes, parseDnsHeader_bytes]
  simp only [Except.ok.injEq, Header.mk.injEq]
  exact ⟨by omega, flagsQR OP Z RC AA TC RD RA, flagsOP OP Z RC AA TC RD RA hOP,
    flagsAA OP Z RC AA TC RD RA, flagsTC OP Z RC AA TC RD RA, flagsRD OP Z RC AA TC RD RA,
    flagsRA OP Z RC AA TC RD RA, flagsZ OP Z RC AA TC RD RA hZ, flagsRC OP Z RC AA TC RD RA hRC,
    by omega, by omega, by omega, by omega⟩

/-- `parse_build_fields` stated on a whole `Header` value. -/
theorem parse_build (h : Header) (hv : h.Valid) :
    parseDnsHeader (buildResponse h) = .ok {h with QR := true} := by
  obtain ⟨ID, QR, OP, AA, TC, RD, RA, Z, RC, QD, AN, NS, AR⟩ := h
  obtain ⟨h1, h2, h3, h4, h5, h6, h7, h8⟩ := hv
  exact parse_build_fields ID QR OP AA TC RD RA Z RC QD AN NS AR h1 h2 h3 h4 h5 h6 h7 h8

/-! ### Name and record encoding (from the Go source) -/

/-- The name-encoding loop of `DNSQuestion.Serialize` / `DNSAnswer.Serialize`:
the Go code splits the dotted name into labels (modelled here as the list of
labels, each a list of bytes) and, for each, appends one length byte
`byte(len(label))` — i.e. the length modulo 256, with no range check —
followed by the label's bytes; after the loop a single 0 byte. -/
def encodeName (labels : List (List Nat)) : List Nat :=
  (labels.foldl (fun buf label => buf ++ (label.length % 256) :: label) []) ++ [0]

/-- `DNSQuestion` from the Go source; `Name` is the label list the Go code
obtains by splitting the dotted string. -/
structure DNSQuestion where
  Name   : List (List Nat)
  «Type» : Nat
  Class  : Nat
deriving DecidableEq, Repr

/-- `DNSQuestion.Serialize`: name labels with length prefixes and 0
terminator, then Type and Class big-endian. -/
def DNSQuestion.Serialize (q : DNSQuestion) : List Nat :=
  encodeName q.Name ++ toBytes16 q.«Type» ++ toBytes16 q.Class

/-- `DNSAnswer` from the Go source. -/
structure DNSAnswer where
  Name     : List (List Nat)
  «Type»   : Nat
  Class    : Nat
  TTL      : Nat
  RDLength : Nat
  RData    : List Nat
deriving DecidableEq, Repr

/-- `DNSAnswer.Serialize`: name, Type, Class, TTL (32-bit big-endian), then
the caller-supplied `RDLength` field and the raw `RData` bytes. -/
def DNSAnswer.Serialize (a : DNSAnswer) : List Nat :=
  encodeName a.Name ++ toBytes16 a.«Type» ++ toBytes16 a.Class ++
  toBytes32 a.TTL ++ toBytes16 a.RDLength ++ a.RData

/-! ### Name decoding as in the Go `parseDNSQuestion` (no pointer support) -/

/-- The name-reading loop of `parseDNSQuestion` in the Go source:
`labelSize := int(data[0])`; 0 ends the name (the 0 byte is consumed);
otherwise the next `labelSize` bytes form a label and the loop continues
after them.  The Go code indexes and slices unchecked — an out-of-range
access panics — which we model as `none`.  The result is the collected
labels plus the bytes remaining after the terminator (the Go code keeps
re-slicing `data`).  `fuel` only bounds the recursion; since every label
step consumes at least two bytes, `data.length` steps always suffice. -/
def decodeNameSrcAux : Nat → List Nat → Option (List (List Nat) × List Nat)
  | _, [] => none
  | fuel, len :: rest =>
    if len = 0 then some ([], rest)
    else
      match fuel with
      | 0 => none
      | fuel + 1 =>
        if len ≤ rest.length then
          match decodeNameSrcAux fuel (rest.drop len) with
          | some (labels, rem) => some (rest.take len :: labels, rem)
          | none => none
        else none

def decodeNameSrc (data : List Nat) : Option (List (List Nat) × List Nat) :=
  decodeNameSrcAux data.length data

/-- `parseDNSQuestion` from the Go source: read the name, then Type and
Class; the Go code returns an error when fewer than 4 bytes remain
(and panics on a malformed name, which we fold into `none` as well). -/
def parseDNSQuestion (data : List Nat) : Option DNSQuestion :=
  match decodeNameSrc data with
  | none => none
  | some (labels, rest) =>
    if rest.length < 4 then none
    else some ⟨labels, 256 * rest.getD 0 0 + rest.getD 1 0,
      256 * rest.getD 2 0 + rest.getD 3 0⟩

example : parseDnsHeader [0, 0, 1, 2, 1, 2, 3, 4, 5, 6, 7, 8] =
    .ok ⟨0, false, 0, false, false, true, false, 0, 2,
      0x0102, 0x0304, 0x0506, 0x0708⟩ := by decide

example : parseDnsHeader [1] = .error .truncatedInput := by decide

example :
    parseDnsHeader (buildResponse
      ⟨7, false, 3, true, false, true, false, 2, 9, 1, 2, 3, 4⟩) =
    .ok ⟨7, true, 3, true, false, true, false, 2, 9, 1, 2, 3, 4⟩ := by decide

example : decodeNameSrc (encodeName [[97, 98, 99], [100, 101]]) =
    some ([[97, 98, 99], [100, 101]], []) := by decide

example : DNSQuestion.Serialize ⟨[[97]], 1, 1⟩ = [1, 97, 0, 0, 1, 0, 1] := by decide

/-! ### Compression-aware name decoding

The repository's test `TestParseDNSQuestions` exercises `DNSHeader.Parse`
and `parseDNSQuestions`, a question decoder that follows compression
pointers; the implementation of those two functions is not among the
available sources — only this test of them is.  The decoder below is
therefore modelled from the design document (§4.2/§4.3) rather than
translated from Go. -/

/-- Modelled from the spec: `decodeName(buffer, startOffset)` of §4.2, whose
Go implementation (`parseDNSQuestions` and its name loop) is missing from
the sources.  A length byte is either `0x00` (end of name), `1–63` (ordinary
label: that many content bytes follow), top bits `11` (`≥ 192`: compression
pointer, low 14 bits of the two-byte field are an absolute offset into the
whole message) or a reserved pattern (`64–191`), which fails with
`InvalidLabelLength`.  Reads past the buffer fail with `TruncatedInput`.
`fuel` realizes the spec's bounded-work policy: every step costs one unit
and exhaustion reports `CompressionLoop`; the entry point grants
`msg.length + 1` units, more than any well-formed name can use, so only
pointer cycles (or pathological overlapping chains past the depth limit)
are rejected. -/
def decodeNameAux (msg : List Nat) : Nat → Nat → Except DnsError (List (List Nat) × Nat)
  | fuel, pos =>
    if pos < msg.length then
      if msg.getD pos 0 = 0 then .ok ([], pos + 1)
      else if msg.getD pos 0 ≤ 63 then
        if pos + 1 + msg.getD pos 0 ≤ msg.length then
          match fuel with
          | 0 => .error .compressionLoop
          | fuel + 1 =>
            match decodeNameAux msg fuel (pos + 1 + msg.getD pos 0) with
            | .ok (labels, next) =>
                .ok ((msg.drop (pos + 1)).take (msg.getD pos 0) :: labels, next)
            | .error e => .error e
        else .error .truncatedInput
      else if 192 ≤ msg.getD pos 0 then
        if pos + 1 < msg.length then
          match fuel with
          | 0 => .error .compressionLoop
          | fuel + 1 =>
            match decodeNameAux msg fuel (msg.getD pos 0 % 64 * 256 + msg.getD (pos + 1) 0) with
            | .ok (labels, _) => .ok (labels, pos + 2)
            | .error e => .error e
        else .error .truncatedInput
      else .error .invalidLabelLength
    else .error .truncatedInput

/-- Modelled from the spec: name decoding starting at `pos`, with the hop
budget set from the message length (§4.2: "a depth limit, e.g. the message
length"). -/
def decodeName (msg : List Nat) (pos : Nat) : Except DnsError (List (List Nat) × Nat) :=
  decodeNameAux msg (msg.length + 1) pos

/-- Modelled from the spec: `decodeQuestion(buffer, offset)` of §4.3 — name,
then Type and Class as big-endian 16-bit reads, failing with
`TruncatedInput` when fewer than 4 bytes remain after the name. -/
def parseQuestionAt (msg : List Nat) (pos : Nat) : Except DnsError (DNSQuestion × Nat) :=
  match decodeName msg pos with
  | .error e => .error e
  | .ok (labels, next) =>
    if next + 4 ≤ msg.length then
      .ok (⟨labels, readU16 msg next, readU16 msg (next + 2)⟩, next + 4)
    else .error .truncatedInput

/-- Modelled from the spec: decode `count` questions in sequence, each
starting where the previous one ended (§4.4). -/
def parseDNSQuestionsAux (msg : List Nat) : Nat → Nat → Except DnsError (List DNSQuestion × Nat)
  | 0, pos => .ok ([], pos)
  | n + 1, pos =>
    match parseQuestionAt msg pos with
    | .error e => .error e
    | .ok (q, next) =>
      match parseDNSQuestionsAux msg n next with
      | .error e => .error e
      | .ok (qs, fin) => .ok (q :: qs, fin)

/-- Modelled from the spec: whole-message question decoding — header, then
QDCOUNT questions starting at offset 12, pointer offsets resolved against
the whole message buffer (§4.2, §4.4; this is the flow the repository's
`TestParseDNSQuestions` exercises). -/
def parseDNSQuestions (msg : List Nat) : Except DnsError (List DNSQuestion) :=
  match parseDnsHeader msg with
  | .error e => .error e
  | .ok h =>
    match parseDNSQuestionsAux msg h.QDCOUNT 12 with
    | .error e => .error e
    | .ok (qs, _) => .ok qs

/-- The byte pair at `p` is a compression pointer (top two bits `11`) whose
14-bit absolute offset is `t`, and both bytes are inside the message. -/
def IsPtrTo (msg : List Nat) (p t : Nat) : Prop :=
  msg.getD p 0 = 192 + t / 256 ∧ msg.getD (p + 1) 0 = t % 256 ∧
  p + 1 < msg.length ∧ t < 16384

instance (msg : List Nat) (p t : Nat) : Decidable (IsPtrTo msg p t) := by
  unfold IsPtrTo; infer_instance

/-- The message of `TestParseDNSQuestions`: QDCOUNT = 2, first question
`abc.longassdomainname.com`, second question `def` followed by a pointer
`0xC0 0x10` to offset 16 (the `longassdomainname` label). -/
def testMsg : List Nat :=
  [16, 129, 1, 0, 0, 2, 0, 0, 0, 0, 0, 0,
   3, 97, 98, 99,
   17, 108, 111, 110, 103, 97, 115, 115, 100, 111, 109, 97, 105, 110, 110, 97, 109, 101,
   3, 99, 111, 109, 0,
   0, 1, 0, 1,
   3, 100, 101, 102, 192, 16,
   0, 1, 0, 1]

example : decodeName testMsg 12 =
    .ok ([[97, 98, 99],
      [108, 111, 110, 103, 97, 115, 115, 100, 111, 109, 97, 105, 110, 110, 97, 109, 101],
      [99, 111, 109]], 39) := by decide

example : decodeName testMsg 43 =
    .ok ([[100, 101, 102],
      [108, 111, 110, 103, 97, 115, 115, 100, 111, 109, 97, 105, 110, 110, 97, 109, 101],
      [99, 111, 109]], 49) := by decide

example : decodeName [192, 0, 0] 0 = .error .compressionLoop := by decide

/-! ### Helper lemmas for the claims -/

lemma decodeNameAux_ptr_step (msg : List Nat) (fuel X p : Nat) (ls : List (List Nat)) (n : Nat)
    (hptr : IsPtrTo msg p X) (hrec : decodeNameAux msg fuel X = .ok (ls, n)) :
    decodeNameAux msg (fuel + 1) p = .ok (ls, p + 2) := by
  obtain ⟨h1, h2, h3, h4⟩ := hptr
  have hdiv : X / 256 < 64 := by omega
  rw [decodeNameAux]
  rw [if_pos (show p < msg.length by omega)]
  rw [if_neg (show ¬ msg.getD p 0 = 0 by omega)]
  rw [if_neg (show ¬ msg.getD p 0 ≤ 63 by omega)]
  rw [if_pos (show 192 ≤ msg.getD p 0 by omega)]
  rw [if_pos h3]
  have htgt : msg.getD p 0 % 64 * 256 + msg.getD (p + 1) 0 = X := by omega
  rw [htgt, hrec]

lemma decodeNameAux_cycle (msg : List Nat) (S : Nat → Prop)
    (hS : ∀ p, S p → ∃ t, IsPtrTo msg p t ∧ S t) :
    ∀ fuel p, S p → decodeNameAux msg fuel p = .error .compressionLoop := by
  intro fuel
  induction fuel with
  | zero =>
    intro p hp
    obtain ⟨t, ⟨h1, h2, h3, h4⟩, _⟩ := hS p hp
    rw [decodeNameAux]
    rw [if_pos (show p < msg.length by omega)]
    rw [if_neg (show ¬ msg.getD p 0 = 0 by omega)]
    rw [if_neg (show ¬ msg.getD p 0 ≤ 63 by omega)]
    rw [if_pos (show 192 ≤ msg.getD p 0 by omega)]
    rw [if_pos h3]
  | succ fuel ih =>
    intro p hp
    obtain ⟨t, ⟨h1, h2, h3, h4⟩, hSt⟩ := hS p hp
    rw [decodeNameAux]
    rw [if_pos (show p < msg.length by omega)]
    rw [if_neg (show ¬ msg.getD p 0 = 0 by omega)]
    rw [if_neg (show ¬ msg.getD p 0 ≤ 63 by omega)]
    rw [if_pos (show 192 ≤ msg.getD p 0 by omega)]
    rw [if_pos h3]
    have htgt : msg.getD p 0 % 64 * 256 + msg.getD (p + 1) 0 = t := by omega
    rw [htgt, ih t hSt]

lemma encodeName_foldl (labels : List (List Nat)) (acc : List Nat) :
    labels.foldl (fun buf label => buf ++ (label.length % 256) :: label) acc =
      acc ++ labels.flatMap (fun l => (l.length % 256) :: l) := by
  induction labels generalizing acc with
  | nil => simp
  | cons l rest ih => simp [ih, List.append_assoc]

lemma encodeName_eq (labels : List (List Nat)) :
    encodeName labels = labels.flatMap (fun l => (l.length % 256) :: l) ++ [0] := by
  unfold encodeName
  rw [encodeName_foldl]
  simp

lemma decode_encode_aux (ls : List (List Nat)) :
    ∀ (suffix : List Nat) (fuel : Nat),
      (∀ l ∈ ls, 1 ≤ l.length ∧ l.length ≤ 63) → ls.length ≤ fuel →
      decodeNameSrcAux fuel ((ls.flatMap fun l => (l.length % 256) :: l) ++ 0 :: suffix) =
        some (ls, suffix) := by
  induction ls with
  | nil =>
    intro suffix fuel _ _
    simp only [List.flatMap_nil, List.nil_append]
    match fuel with
    | 0 => rfl
    | fuel + 1 => rfl
  | cons l rest ih =>
    intro suffix fuel hwf hfuel
    obtain ⟨hl1, hl63⟩ := hwf l (by simp)
    match fuel with
    | 0 => simp at hfuel
    | fuel + 1 =>
      have hmod : l.length % 256 = l.length := Nat.mod_eq_of_lt (by omega)
      simp only [List.flatMap_cons, List.cons_append, List.append_assoc]
      rw [decodeNameSrcAux]
      rw [if_neg (by omega)]
      rw [hmod]
      rw [if_pos (by simp)]
      rw [List.take_left' rfl, List.drop_left' rfl]
      rw [ih suffix fuel (fun x hx => hwf x (by simp [hx])) (by simp at hfuel ⊢; omega)]

lemma flatMap_length_ge (ls : List (List Nat)) :
    ls.length ≤ (ls.flatMap fun l => (l.length % 256) :: l).length := by
  induction ls with
  | nil => simp
  | cons l rest ih => simp at ih ⊢; omega

theorem name_roundTrip (labels : List (List Nat))
    (hwf : ∀ l ∈ labels, 1 ≤ l.length ∧ l.length ≤ 63)
    (hlen : (encodeName labels).length ≤ 255) :
    decodeNameSrc (encodeName labels) = some (labels, []) := by
  unfold decodeNameSrc
  rw [encodeName_eq]
  have hfuel : labels.length ≤ ((labels.flatMap fun l => (l.length % 256) :: l) ++ [0]).length := by
    have h1 := flatMap_length_ge labels
    rw [List.length_append]
    omega
  exact decode_encode_aux labels []
    ((labels.flatMap fun l => (l.length % 256) :: l) ++ [0]).length hwf hfuel

lemma serialize_answer_regroup (a : DNSAnswer) :
    DNSAnswer.Serialize a =
      (encodeName a.Name ++ toBytes16 a.«Type» ++ toBytes16 a.Class ++ toBytes32 a.TTL) ++
        (toBytes16 a.RDLength ++ a.RData) := by
  unfold DNSAnswer.Serialize
  simp [List.append_assoc]

lemma serialize_answer_prefix_length (a : DNSAnswer) :
    (encodeName a.Name ++ toBytes16 a.«Type» ++ toBytes16 a.Class ++ toBytes32 a.TTL).length =
      (encodeName a.Name).length + 8 := by
  simp [toBytes16, toBytes32]

theorem rdlength_from_caller (a : DNSAnswer) (h : a.RDLength < 65536) :
    readU16 (DNSAnswer.Serialize a) ((encodeName a.Name).length + 8) = a.RDLength ∧
    (DNSAnswer.Serialize a).drop ((encodeName a.Name).length + 10) = a.RData := by
  have hre := serialize_answer_regroup a
  have hlen := serialize_answer_prefix_length a
  constructor
  · unfold readU16
    rw [hre]
    rw [List.getD_append_right
      (encodeName a.Name ++ toBytes16 a.«Type» ++ toBytes16 a.Class ++ toBytes32 a.TTL)
      (toBytes16 a.RDLength ++ a.RData) 0 ((encodeName a.Name).length + 8) (by omega)]
    rw [List.getD_append_right
      (encodeName a.Name ++ toBytes16 a.«Type» ++ toBytes16 a.Class ++ toBytes32 a.TTL)
      (toBytes16 a.RDLength ++ a.RData) 0 ((encodeName a.Name).length + 8 + 1) (by omega)]
    rw [hlen]
    have i1 : (encodeName a.Name).length + 8 -
        ((encodeName a.Name).length + 8) = 0 := by omega
    have i2 : (encodeName a.Name).length + 8 + 1 -
        ((encodeName a.Name).length + 8) = 1 := by omega
    rw [i1, i2]
    simp [toBytes16]
    omega
  · rw [hre, ← List.append_assoc]
    rw [List.drop_left' (by rw [List.length_append, hlen]; simp [toBytes16])]

lemma flatMap_mod (ls : List (List Nat)) (hwf : ∀ l ∈ ls, l.length ≤ 63) :
    (ls.flatMap fun l => (l.length % 256) :: l) = ls.flatMap fun l => l.length :: l := by
  induction ls with
  | nil => simp
  | cons l rest ih =>
    have h1 := hwf l (by simp)
    simp only [List.flatMap_cons]
    rw [Nat.mod_eq_of_lt (by omega), ih (fun x hx => hwf x (by simp [hx]))]

/-! ## The claims -/

/-- C1 (counterexample): the round trip does not preserve QR.  The all-zero
header is valid and has `QR = false`, but decoding the bytes `buildResponse`
produces for it yields a header with `QR = true`, hence not the original. -/
theorem C1_counterexample :
    parseDnsHeader (buildResponse ⟨0, false, 0, false, false, false, false, 0, 0, 0, 0, 0, 0⟩) ≠
      Except.ok ⟨0, false, 0, false, false, false, false, 0, 0, 0, 0, 0, 0⟩ := by
  decide

/-- C1 (amended): for every valid header whose QR field is already `true`,
encoding with `buildResponse` and decoding with `parseDnsHeader` yields the
original header; `buildResponse` forces QR to 1, so round-tripping the QR
field only holds on that domain. -/
theorem C1_theorem (h : Header) (hv : h.Valid) (hqr : h.QR = true) :
    parseDnsHeader (buildResponse h) = .ok h := by
  have hk := parse_build h hv
  obtain ⟨ID, QR, OP, AA, TC, RD, RA, Z, RC, QD, AN, NS, AR⟩ := h
  simp only at hqr
  subst hqr
  exact hk

theorem C1_witness :
    parseDnsHeader (buildResponse ⟨1, true, 2, true, false, true, false, 3, 4, 5, 6, 7, 8⟩) =
      .ok ⟨1, true, 2, true, false, true, false, 3, 4, 5, 6, 7, 8⟩ :=
  C1_theorem ⟨1, true, 2, true, false, true, false, 3, 4, 5, 6, 7, 8⟩ (by decide) rfl

/-- C2: a name ending in a compression pointer decodes to exactly the labels
stored at the pointer target (first conjunct: decoding at a pointer byte to
offset `X` succeeds with the labels decoded at `X` and consumes exactly the
2-byte pointer), and the spec's concrete buffer with QDCOUNT = 2 decodes to
the questions `abc.longassdomainname.com` and `def.longassdomainname.com`
(second conjunct; labels are byte lists). -/
theorem C2_theorem :
    (∀ (msg : List Nat) (fuel X p : Nat) (ls : List (List Nat)) (n : Nat),
      IsPtrTo msg p X → decodeNameAux msg fuel X = .ok (ls, n) →
      decodeNameAux msg (fuel + 1) p = .ok (ls, p + 2)) ∧
    parseDNSQuestions testMsg = .ok
      [⟨[[97, 98, 99],
         [108, 111, 110, 103, 97, 115, 115, 100, 111, 109, 97, 105, 110, 110, 97, 109, 101],
         [99, 111, 109]], 1, 1⟩,
       ⟨[[100, 101, 102],
         [108, 111, 110, 103, 97, 115, 115, 100, 111, 109, 97, 105, 110, 110, 97, 109, 101],
         [99, 111, 109]], 1, 1⟩] :=
  ⟨decodeNameAux_ptr_step, by decide⟩

theorem C2_witness :
    decodeNameAux [192, 2, 1, 97, 0] 3 0 = .ok ([[97]], 2) :=
  C2_theorem.1 [192, 2, 1, 97, 0] 2 2 0 [[97]] 5 (by decide) (by decide)

/-- C3: name decoding always terminates with bounded work (the decoder is a
total function on a fuel budget), and on any set `S` of offsets that all
hold compression pointers leading back into `S` — in particular a pointer
to its own offset, or any pointer cycle — decoding from an offset in `S`
returns `CompressionLoop`, for every fuel budget. -/
theorem C3_theorem (msg : List Nat) (S : Nat → Prop)
    (hS : ∀ p, S p → ∃ t, IsPtrTo msg p t ∧ S t) :
    ∀ fuel p, S p → decodeNameAux msg fuel p = .error .compressionLoop :=
  decodeNameAux_cycle msg S hS

theorem C3_witness :
    decodeName [192, 0, 0] 0 = .error .compressionLoop :=
  C3_theorem [192, 0, 0] (fun p => p = 0)
    (fun p hp => ⟨0, by subst hp; exact ⟨by decide, rfl⟩⟩) 4 0 rfl

/-- C4: the specific header bytes of the repository's test decode exactly as
stated: QR=false, OPCODE=0, AA=false, TC=false, RD=true, RA=false, Z=0,
RCODE=2, QDCOUNT=0x0102, ANCOUNT=0x0304, NSCOUNT=0x0506, ARCOUNT=0x0708. -/
theorem C4_theorem :
    parseDnsHeader [0, 0, 0x01, 0x02, 0x01, 0x02, 0x03, 0x04, 0x05, 0x06, 0x07, 0x08] =
      .ok ⟨0, false, 0, false, false, true, false, 0, 2,
        0x0102, 0x0304, 0x0506, 0x0708⟩ := by
  decide

/-- C5: every buffer shorter than 12 bytes fails header decoding with
`TruncatedInput` and yields no header; every buffer of length at least 12
decodes to some header (so in particular never returns that error). -/
theorem C5_theorem (buf : List Nat) :
    (buf.length < 12 → parseDnsHeader buf = .error .truncatedInput) ∧
    (12 ≤ buf.length → ∃ h, parseDnsHeader buf = .ok h) := by
  constructor
  · intro hlen
    unfold parseDnsHeader
    rw [if_pos hlen]
  · intro hlen
    unfold parseDnsHeader
    rw [if_neg (by omega)]
    exact ⟨_, rfl⟩

theorem C5_witness :
    (parseDnsHeader [0x01] = .error .truncatedInput) ∧
    (∃ h, parseDnsHeader (List.replicate 12 0) = .ok h) :=
  ⟨(C5_theorem [0x01]).1 (by decide), (C5_theorem (List.replicate 12 0)).2 (by decide)⟩

/-- C6 (counterexample): a 64-byte label is not rejected — the Go encoder
has no `LabelTooLong` path at all.  Serializing a question whose single
label has 64 bytes emits the length byte 64 followed by the raw bytes,
where the claim demands a failure with no bytes emitted. -/
theorem C6_counterexample :
    DNSQuestion.Serialize ⟨[List.replicate 64 97], 1, 1⟩ =
      64 :: (List.replicate 64 97 ++ [0, 0, 1, 0, 1]) := by
  decide

/-- C6 (amended): name encoding emits, for each label in order, one length
byte equal to the label's byte length modulo 256 (equal to the byte length
itself whenever the label is at most 63 bytes) followed by the label's raw
bytes, and terminates with a single zero byte; it never fails — there is no
`LabelTooLong` check, labels longer than 63 bytes are emitted anyway. -/
theorem C6_theorem (q : DNSQuestion) :
    DNSQuestion.Serialize q =
      (q.Name.flatMap fun l => (l.length % 256) :: l) ++ [0] ++
        toBytes16 q.«Type» ++ toBytes16 q.Class ∧
    ((∀ l ∈ q.Name, l.length ≤ 63) →
      DNSQuestion.Serialize q =
        (q.Name.flatMap fun l => l.length :: l) ++ [0] ++
          toBytes16 q.«Type» ++ toBytes16 q.Class) := by
  constructor
  · unfold DNSQuestion.Serialize
    rw [encodeName_eq]
  · intro hwf
    unfold DNSQuestion.Serialize
    rw [encodeName_eq, flatMap_mod q.Name hwf]

theorem C6_witness :
    DNSQuestion.Serialize ⟨[[97], [98, 99]], 1, 1⟩ =
      ([[97], [98, 99]].flatMap fun l => l.length :: l) ++ [0] ++
        toBytes16 1 ++ toBytes16 1 :=
  (C6_theorem ⟨[[97], [98, 99]], 1, 1⟩).2 (by decide)

/-- C7 (counterexample): the RDLENGTH field is not computed from the RDATA.
For an answer with caller-supplied `RDLength = 5` but 4 bytes of RDATA, the
serialized RDLENGTH field reads back 5, not the RDATA length 4; the full
byte sequence is shown. -/
theorem C7_counterexample :
    readU16 (DNSAnswer.Serialize ⟨[[97]], 1, 1, 60, 5, [8, 8, 8, 8]⟩) 11 ≠ 4 ∧
    DNSAnswer.Serialize ⟨[[97]], 1, 1, 60, 5, [8, 8, 8, 8]⟩ =
      [1, 97, 0, 0, 1, 0, 1, 0, 0, 0, 60, 0, 5, 8, 8, 8, 8] := by
  decide

/-- C7 (amended): answer encoding writes the encoded name, Type, Class and
TTL, then an RDLENGTH field equal to the caller-supplied `RDLength` value —
taken from the struct field, not computed from the RDATA — followed by the
raw RDATA bytes. -/
theorem C7_theorem (a : DNSAnswer) (h : a.RDLength < 65536) :
    readU16 (DNSAnswer.Serialize a) ((encodeName a.Name).length + 8) = a.RDLength ∧
    (DNSAnswer.Serialize a).drop ((encodeName a.Name).length + 10) = a.RData :=
  rdlength_from_caller a h

theorem C7_witness :
    readU16 (DNSAnswer.Serialize ⟨[[97]], 1, 1, 60, 7, [8, 8, 8, 8]⟩)
        ((encodeName [[97]]).length + 8) = 7 ∧
    (DNSAnswer.Serialize ⟨[[97]], 1, 1, 60, 7, [8, 8, 8, 8]⟩).drop
        ((encodeName [[97]]).length + 10) = [8, 8, 8, 8] :=
  C7_theorem ⟨[[97]], 1, 1, 60, 7, [8, 8, 8, 8]⟩ (by decide)

/-- C8: for every name given as a list of non-empty labels of 1–63 bytes
whose total encoding is at most 255 bytes, encoding the name and decoding
the result (with the Go `parseDNSQuestion` name loop) returns exactly the
original labels, consuming the whole buffer. -/
theorem C8_theorem (labels : List (List Nat))
    (hwf : ∀ l ∈ labels, 1 ≤ l.length ∧ l.length ≤ 63)
    (hlen : (encodeName labels).length ≤ 255) :
    decodeNameSrc (encodeName labels) = some (labels, []) :=
  name_roundTrip labels hwf hlen

theorem C8_witness :
    decodeNameSrc (encodeName [[97], [98, 99]]) = some ([[97], [98, 99]], []) :=
  C8_theorem [[97], [98, 99]] (by decide) (by decide)

/-- C9: for every header — also with OPCODE, Z or RCODE out of range —
`buildResponse` emits exactly 12 bytes, and the multi-bit fields are masked
to their widths before shifting: the output is unchanged when OPCODE, Z and
RCODE are reduced mod 16, 8 and 16, so out-of-range bits never bleed into
adjacent fields. -/
theorem C9_theorem (h : Header) :
    (buildResponse h).length = 12 ∧
    buildResponse h =
      buildResponse {h with OPCODE := h.OPCODE % 16, Z := h.Z % 8, RCODE := h.RCODE % 16} := by
  obtain ⟨ID, QR, OP, AA, TC, RD, RA, Z, RC, QD, AN, NS, AR⟩ := h
  constructor
  · rfl
  · have hm : mkFlags OP Z RC AA TC RD RA = mkFlags (OP % 16) (Z % 8) (RC % 16) AA TC RD RA := by
      rw [mkFlags_eq, mkFlags_eq]
      omega
    simp only [buildResponse]
    rw [hm]

/-- C10: building a response from any valid header preserves every field
except QR, which is always `true` in the decoded result regardless of the
input's QR. -/
theorem C10_theorem (h : Header) (hv : h.Valid) :
    parseDnsHeader (buildResponse h) = .ok {h with QR := true} :=
  parse_build h hv

theorem C10_witness :
    parseDnsHeader (buildResponse ⟨9, false, 5, true, true, false, true, 6, 11, 100, 200, 300, 400⟩) =
      .ok ⟨9, true, 5, true, true, false, true, 6, 11, 100, 200, 300, 400⟩ :=
  C10_theorem ⟨9, false, 5, true, true, false, true, 6, 11, 100, 200, 300, 400⟩ (by decide)
